import Mathlib

/-
  Verification of the PNG chunk-container engine (pngme).

  The repository contains two parallel implementations of the core:
  * the legacy one inside `src/png.rs` (struct `Png` with its own `Chunk` and
    `ChunkType`): `Png::from_bytes`, `Png::as_bytes`, `Png::insert_chunk`,
    `Chunk::from_bytes`, `ChunkType::from_bytes`, `ChunkType::from_str`,
    and the legacy `ChunkType::is_valid`;
  * the newer one in `src/chunk.rs` / `src/chunk_type.rs`:
    `Chunk::try_from`, `Chunk::new`, `Chunk::as_bytes`,
    `ChunkType::try_from`, `ChunkType::from_str` and the property predicates.

  Both are embedded below.  Byte buffers are `List Nat` whose entries are the
  byte values; u32 arithmetic carries explicit `% 4294967296`.
-/

/-- Big-endian 32-bit read of four bytes (u32::from_be_bytes). -/
def be32 (a b c d : Nat) : Nat := ((a * 256 + b) * 256 + c) * 256 + d

/-- Big-endian byte decomposition of a u32 (u32::to_be_bytes). -/
def be32Bytes (n : Nat) : List Nat :=
  [n / 16777216 % 256, n / 65536 % 256, n / 256 % 256, n % 256]

/-- CRC-32 generator polynomial in reflected representation, 0xEDB88320,
as used by `crc::crc32::checksum_ieee`. -/
def crcPoly : Nat := 3988292384

/-- One bit-step of the CRC-32 table construction: shift right and
conditionally xor the polynomial (the loop body of `make_table`). -/
def crcStep1 (c : Nat) : Nat := if c % 2 = 1 then (c / 2) ^^^ crcPoly else c / 2

/-- One entry of the IEEE CRC-32 table: eight bit-steps applied to the index. -/
def crcTable (b : Nat) : Nat :=
  crcStep1 (crcStep1 (crcStep1 (crcStep1 (crcStep1 (crcStep1 (crcStep1 (crcStep1 b)))))))

/-- The byte-update of the running CRC value
(`value = table[((value ^ b) & 0xFF) as usize] ^ (value >> 8)`). -/
def crcUpdate (c b : Nat) : Nat := crcTable ((c ^^^ b) % 256) ^^^ c / 256

/-- `crc::crc32::checksum_ieee`: init 0xFFFFFFFF, bytewise table update,
final xor 0xFFFFFFFF. -/
def crc32 (l : List Nat) : Nat := (l.foldl crcUpdate 4294967295) ^^^ 4294967295

/-- A 4-byte chunk type code (both `ChunkType` structs have this shape). -/
structure ChunkType where
  b0 : Nat
  b1 : Nat
  b2 : Nat
  b3 : Nat
deriving DecidableEq, Repr

/-- `ChunkType::bytes()`. -/
def ChunkType.bytes (t : ChunkType) : List Nat := [t.b0, t.b1, t.b2, t.b3]

/-- `u8::is_ascii_uppercase`. -/
def isAsciiUppercase (b : Nat) : Bool := 65 ≤ b && b ≤ 90

/-- `u8::is_ascii_lowercase`. -/
def isAsciiLowercase (b : Nat) : Bool := 97 ≤ b && b ≤ 122

/-- `ChunkType::is_valid_byte` (src/chunk_type.rs): A-Z or a-z. -/
def ChunkType.isValidByte (b : Nat) : Bool :=
  (65 ≤ b && b ≤ 90) || (97 ≤ b && b ≤ 122)

/-- `ChunkType::is_critical` (byte 0 uppercase). -/
def ChunkType.is_critical (t : ChunkType) : Bool := isAsciiUppercase t.b0

/-- `ChunkType::is_public` (byte 1 uppercase). -/
def ChunkType.is_public (t : ChunkType) : Bool := isAsciiUppercase t.b1

/-- `ChunkType::is_reserved_bit_valid` (src/chunk_type.rs, byte 2 uppercase). -/
def ChunkType.is_reserved_bit_valid (t : ChunkType) : Bool := isAsciiUppercase t.b2

/-- `ChunkType::is_safe_to_copy` (byte 3 lowercase). -/
def ChunkType.is_safe_to_copy (t : ChunkType) : Bool := isAsciiLowercase t.b3

/-- `ChunkType::is_valid` (src/chunk_type.rs): reserved bit valid and all four
bytes in the letter ranges. -/
def ChunkType.is_valid (t : ChunkType) : Bool :=
  t.is_reserved_bit_valid && ChunkType.isValidByte t.b0 && ChunkType.isValidByte t.b1 &&
    ChunkType.isValidByte t.b2 && ChunkType.isValidByte t.b3

/-- All four bytes pass the letter check. -/
def ChunkType.lettersOk (t : ChunkType) : Bool :=
  ChunkType.isValidByte t.b0 && ChunkType.isValidByte t.b1 &&
    ChunkType.isValidByte t.b2 && ChunkType.isValidByte t.b3

/-- Legacy `ChunkType::from_bytes` (src/png.rs): no validation at all. -/
def ChunkType.fromBytesOld (b0 b1 b2 b3 : Nat) : ChunkType := ⟨b0, b1, b2, b3⟩

/-- Legacy `ChunkType::is_valid` (src/png.rs): only checks byte 2 uppercase. -/
def ChunkType.isValidOld (t : ChunkType) : Bool := isAsciiUppercase t.b2

/-- Errors of the type-code constructors (src/chunk_type.rs error messages). -/
inductive TypeErr where
  | invalidByte (b : Nat)
  | formatError
deriving DecidableEq, Repr

/-- `ChunkType::try_from([u8;4])` (src/chunk_type.rs): bail on the first byte
outside A-Z / a-z. -/
def ChunkType.tryFromBytes (b0 b1 b2 b3 : Nat) : Except TypeErr ChunkType :=
  if ChunkType.isValidByte b0 = false then .error (.invalidByte b0)
  else if ChunkType.isValidByte b1 = false then .error (.invalidByte b1)
  else if ChunkType.isValidByte b2 = false then .error (.invalidByte b2)
  else if ChunkType.isValidByte b3 = false then .error (.invalidByte b3)
  else .ok ⟨b0, b1, b2, b3⟩

/-- `ChunkType::from_str` (src/chunk_type.rs): exactly 4 bytes, ASCII, then
delegate to `try_from`.  Strings are modelled by their UTF-8 byte lists. -/
def ChunkType.fromStr (s : List Nat) : Except TypeErr ChunkType :=
  match s with
  | [a, b, c, d] =>
    if a < 128 && b < 128 && c < 128 && d < 128 then ChunkType.tryFromBytes a b c d
    else .error .formatError
  | _ => .error .formatError

/-- Legacy `ChunkType::from_str` (src/png.rs): exactly 4 ASCII bytes, but no
letter-range validation. -/
def ChunkType.fromStrOld (s : List Nat) : Except TypeErr ChunkType :=
  match s with
  | [a, b, c, d] =>
    if a < 128 && b < 128 && c < 128 && d < 128 then .ok ⟨a, b, c, d⟩
    else .error .formatError
  | _ => .error .formatError

/-- A chunk record (both `Chunk` structs have this shape). -/
structure Chunk where
  length : Nat
  chunkType : ChunkType
  data : List Nat
  crc : Nat
deriving DecidableEq, Repr

/-- `Chunk::new` (src/chunk.rs and src/png.rs agree): length is
`data.len() as u32`, crc is the IEEE CRC-32 of type bytes followed by data. -/
def Chunk.new (t : ChunkType) (d : List Nat) : Chunk :=
  ⟨d.length % 4294967296, t, d, crc32 (t.bytes ++ d)⟩

/-- `Chunk::as_bytes`: length(4B,BE) then type(4B) then data then crc(4B,BE). -/
def Chunk.asBytes (c : Chunk) : List Nat :=
  be32Bytes c.length ++ c.chunkType.bytes ++ c.data ++ be32Bytes c.crc

/-- Errors of `Chunk::try_from` (src/chunk.rs uses anyhow messages; the
distinct bail sites become distinct constructors). -/
inductive ChunkErr where
  | tooShort
  | badType (b : Nat)
  | truncated
  | crcMismatch (computed wire : Nat)
deriving DecidableEq, Repr

/-- `Chunk::try_from(&[u8])` (src/chunk.rs): length(BE), validated type,
`length` data bytes, wire CRC; recompute the CRC over type+data and fail when
it differs from the wire value. -/
def Chunk.tryFrom (bytes : List Nat) : Except ChunkErr Chunk :=
  match bytes with
  | l0 :: l1 :: l2 :: l3 :: t0 :: t1 :: t2 :: t3 :: rest =>
    let L := be32 l0 l1 l2 l3
    match ChunkType.tryFromBytes t0 t1 t2 t3 with
    | .error (.invalidByte b) => .error (.badType b)
    | .error .formatError => .error (.badType 0)
    | .ok ct =>
      if rest.length < L then .error .truncated
      else
        match rest.drop L with
        | c0 :: c1 :: c2 :: c3 :: _ =>
          let wire := be32 c0 c1 c2 c3
          let computed := crc32 ([t0, t1, t2, t3] ++ rest.take L)
          if wire = computed then .ok ⟨L, ct, rest.take L, wire⟩
          else .error (.crcMismatch computed wire)
        | _ => .error .truncated
  | _ => .error .tooShort

/-- Legacy `Chunk::from_bytes(data_length, bytes)` (src/png.rs): the byte
slice after the length field; unvalidated type, `data_length` data bytes, a
wire CRC that is stored without being checked.  Failed reads are panics in the
source (`expect` / caller `unwrap`), modelled as `none`. -/
def Chunk.fromBytesPng (dataLength : Nat) (bytes : List Nat) : Option Chunk :=
  if bytes.length < 8 then none
  else
    match bytes with
    | t0 :: t1 :: t2 :: t3 :: rest =>
      if rest.length < dataLength then none
      else
        match rest.drop dataLength with
        | c0 :: c1 :: c2 :: c3 :: _ =>
          some ⟨dataLength, ChunkType.fromBytesOld t0 t1 t2 t3,
                rest.take dataLength, be32 c0 c1 c2 c3⟩
        | _ => none
    | _ => none

/-- The container: raw 8-byte header plus ordered chunk list (src/png.rs). -/
structure Png where
  header : List Nat
  chunks : List Chunk
deriving DecidableEq, Repr

/-- The fixed PNG magic sequence (spec section 6). -/
def stdHeader : List Nat := [137, 80, 78, 71, 13, 10, 26, 10]

/-- The chunk-reading loop of `Png::from_bytes`, with a structural fuel
argument so the definition computes; the fuel strictly exceeds the byte count,
and every loop iteration consumes at least 12 bytes, so the fuel never runs
out on the paths the program takes.  Reading a 4-byte length succeeds only
when at least 4 bytes remain (`read_exact` on the length buffer); the body
computes `(length + 8) as u32` with wraparound, reads that many bytes
(panicking on shortfall, modelled as `none`) and hands them to
`Chunk::from_bytes`, unwrapping the result. -/
def parseChunksF : Nat → List Nat → Option (List Chunk)
  | 0, _ => none
  | f + 1, a :: b :: c :: d :: rest =>
    let L := be32 a b c d
    let cl := (L + 8) % 4294967296
    if rest.length < cl then none
    else
      match Chunk.fromBytesPng L (rest.take cl) with
      | none => none
      | some ch =>
        match parseChunksF f (rest.drop cl) with
        | none => none
        | some cs => some (ch :: cs)
  | _ + 1, _ => some []

/-- The chunk loop at adequate fuel. -/
def parseChunks (r : List Nat) : Option (List Chunk) := parseChunksF (r.length + 1) r

/-- `Png::from_bytes` (src/png.rs): unwraps an 8-byte header read (panic,
modelled `none`, when fewer than 8 bytes are present), stores the 8 bytes
without comparing them to anything, then runs the chunk loop. -/
def Png.fromBytes (b : List Nat) : Option Png :=
  if b.length < 8 then none
  else
    match parseChunks (b.drop 8) with
    | none => none
    | some cs => some ⟨b.take 8, cs⟩

def chunksBytes : List Chunk → List Nat
  | [] => []
  | c :: cs => c.asBytes ++ chunksBytes cs

/-- `Png::as_bytes`: header followed by each chunk's bytes in order. -/
def Png.asBytes (p : Png) : List Nat := p.header ++ chunksBytes p.chunks

/-- `Png::insert_chunk` (src/png.rs): when the list is non-empty, `Vec::insert`
at index `len - 1`; when it is empty, the body does nothing and the chunk is
dropped. -/
def Png.insertChunk (p : Png) (c : Chunk) : Png :=
  if p.chunks.isEmpty then p
  else ⟨p.header, p.chunks.take (p.chunks.length - 1) ++ c :: p.chunks.drop (p.chunks.length - 1)⟩

/-- Errors of `remove_first_by_type` (spec section 7). -/
inductive RemoveErr where
  | badTypeQuery
  | notFound
deriving DecidableEq, Repr

/-- Remove and return the first chunk of the given type from a list. -/
def removeFirst (ct : ChunkType) : List Chunk → Option (Chunk × List Chunk)
  | [] => none
  | c :: cs =>
    if c.chunkType = ct then some (c, cs)
    else
      match removeFirst ct cs with
      | none => none
      | some (x, r) => some (x, c :: r)

/-- Modelled from the spec: `Png::remove_chunk` in src/png.rs is an
unimplemented stub, so `remove_first_by_type` is taken from spec section 4.3:
parse the type text as a ChunkTypeCode (propagating `FormatError` as
`BadTypeQuery`), linearly scan the sequence, remove and return the first chunk
whose type matches, and fail with `NotFound` when no chunk matches. -/
def Png.removeChunk (p : Png) (s : List Nat) : Except RemoveErr (Chunk × Png) :=
  match ChunkType.fromStr s with
  | .error _ => .error .badTypeQuery
  | .ok ct =>
    match removeFirst ct p.chunks with
    | none => .error .notFound
    | some (c, rest) => .ok (c, ⟨p.header, rest⟩)

/-- Invariants of a chunk that re-parses from its own wire bytes: the length
field matches the data, the length field plus 8 fits a u32 (true of every
chunk the parser produces), and the CRC fits a u32. -/
def WFChunk (c : Chunk) : Prop :=
  c.length = c.data.length ∧ c.length + 8 < 4294967296 ∧ c.crc < 4294967296

instance (c : Chunk) : Decidable (WFChunk c) := by unfold WFChunk; infer_instance

/-- The top bytes of the 256 CRC table entries. -/
def crcTopsList : List Nat := (List.range 256).map (fun i => crcTable i / 16777216)

/- ## Arithmetic helper lemmas -/

theorem be32_be32Bytes (n : Nat) (h : n < 4294967296) :
    be32 (n / 16777216 % 256) (n / 65536 % 256) (n / 256 % 256) (n % 256) = n := by
  unfold be32; omega

theorem be32_lt (a b c d : Nat) (ha : a < 256) (hb : b < 256) (hc : c < 256) (hd : d < 256) :
    be32 a b c d < 4294967296 := by
  unfold be32; omega

theorem be32Bytes_be32 (a b c d : Nat) (ha : a < 256) (hb : b < 256) (hc : c < 256)
    (hd : d < 256) : be32Bytes (be32 a b c d) = [a, b, c, d] := by
  unfold be32Bytes be32
  simp only [List.cons.injEq, and_true]
  refine ⟨?_, ?_, ?_, ?_⟩ <;> omega

theorem be32Bytes_length (n : Nat) : (be32Bytes n).length = 4 := rfl

theorem be32Bytes_bound (n : Nat) : ∀ x ∈ be32Bytes n, x < 256 := by
  unfold be32Bytes
  intro x hx
  simp only [List.mem_cons, List.not_mem_nil, or_false] at hx
  rcases hx with h | h | h | h <;> omega

/- ## CRC-32 bounds -/

theorem crcStep1_lt {c : Nat} (h : c < 4294967296) : crcStep1 c < 4294967296 := by
  unfold crcStep1 crcPoly
  split
  · have h1 : c / 2 < 2 ^ 32 := by omega
    have h2 : (3988292384 : Nat) < 2 ^ 32 := by norm_num
    have := Nat.xor_lt_two_pow h1 h2
    omega
  · omega

theorem crcTable_lt {b : Nat} (h : b < 4294967296) : crcTable b < 4294967296 := by
  unfold crcTable
  exact crcStep1_lt (crcStep1_lt (crcStep1_lt (crcStep1_lt (crcStep1_lt (crcStep1_lt
    (crcStep1_lt (crcStep1_lt h)))))))

theorem crcUpdate_lt {c : Nat} (b : Nat) (h : c < 4294967296) : crcUpdate c b < 4294967296 := by
  unfold crcUpdate
  have h1 : crcTable ((c ^^^ b) % 256) < 2 ^ 32 := by
    have := crcTable_lt (b := (c ^^^ b) % 256) (by omega)
    omega
  have h2 : c / 256 < 2 ^ 32 := by omega
  have := Nat.xor_lt_two_pow h1 h2
  omega

theorem crcFold_lt (l : List Nat) {c : Nat} (h : c < 4294967296) :
    l.foldl crcUpdate c < 4294967296 := by
  induction l generalizing c with
  | nil => simpa using h
  | cons b t ih => simpa using ih (crcUpdate_lt b h)

theorem crc32_lt (l : List Nat) : crc32 l < 4294967296 := by
  unfold crc32
  have h1 : l.foldl crcUpdate 4294967295 < 2 ^ 32 := by
    have := crcFold_lt l (c := 4294967295) (by norm_num)
    omega
  have h2 : (4294967295 : Nat) < 2 ^ 32 := by norm_num
  have := Nat.xor_lt_two_pow h1 h2
  omega

/- ## CRC-32 single-byte sensitivity -/

theorem xor_poly_ge {x : Nat} (hx : x < 2147483648) : 2147483648 ≤ x ^^^ crcPoly := by
  by_contra h
  push_neg at h
  have h31 : (2147483648 : Nat) = 2 ^ 31 := by norm_num
  have hb : (x ^^^ crcPoly).testBit 31 = false := Nat.testBit_lt_two_pow (by omega)
  rw [Nat.testBit_xor] at hb
  have h1 : x.testBit 31 = false := Nat.testBit_lt_two_pow (by omega)
  have h2 : crcPoly.testBit 31 = true := by decide
  simp [h1, h2] at hb

theorem crcStep1_inj {c1 c2 : Nat} (h1 : c1 < 4294967296) (h2 : c2 < 4294967296)
    (he : crcStep1 c1 = crcStep1 c2) : c1 = c2 := by
  unfold crcStep1 at he
  split at he <;> split at he
  · have := Nat.xor_left_inj.mp he
    omega
  · have hge := xor_poly_ge (x := c1 / 2) (by omega)
    omega
  · have hge := xor_poly_ge (x := c2 / 2) (by omega)
    omega
  · omega

theorem xor_div_pow (x y k : Nat) : (x ^^^ y) / 2 ^ k = x / 2 ^ k ^^^ y / 2 ^ k := by
  simp only [← Nat.shiftRight_eq_div_pow]
  apply Nat.eq_of_testBit_eq
  intro i
  simp [Nat.testBit_shiftRight, Nat.testBit_xor]

theorem xor_mod_pow (x y k : Nat) : (x ^^^ y) % 2 ^ k = x % 2 ^ k ^^^ y % 2 ^ k := by
  apply Nat.eq_of_testBit_eq
  intro i
  simp only [Nat.testBit_mod_two_pow, Nat.testBit_xor]
  cases h : decide (i < k) <;> simp

theorem xor_mod_256 (x y : Nat) : (x ^^^ y) % 256 = x % 256 ^^^ y % 256 := by
  have h := xor_mod_pow x y 8
  norm_num at h
  exact h

theorem xor_div_top (x y : Nat) : (x ^^^ y) / 16777216 = x / 16777216 ^^^ y / 16777216 := by
  have h := xor_div_pow x y 24
  norm_num at h
  exact h

set_option maxRecDepth 10000 in
theorem crcTopsList_nodup : crcTopsList.Nodup := by decide

theorem crcTable_top_ne {i j : Nat} (hi : i < 256) (hj : j < 256) (hne : i ≠ j) :
    crcTable i / 16777216 ≠ crcTable j / 16777216 := by
  intro h
  have hlen : crcTopsList.length = 256 := by simp [crcTopsList]
  have hget : crcTopsList.get ⟨i, by rw [hlen]; exact hi⟩
      = crcTopsList.get ⟨j, by rw [hlen]; exact hj⟩ := by
    simp only [List.get_eq_getElem, crcTopsList, List.getElem_map, List.getElem_range]
    exact h
  have := (crcTopsList_nodup.get_inj_iff).mp hget
  exact hne (congrArg Fin.val this)

theorem crcUpdate_ne_state {c1 c2 : Nat} (b : Nat) (hb : b < 256)
    (h1 : c1 < 4294967296) (h2 : c2 < 4294967296) (hne : c1 ≠ c2) :
    crcUpdate c1 b ≠ crcUpdate c2 b := by
  unfold crcUpdate
  intro h
  by_cases hlo : c1 % 256 = c2 % 256
  · have hidx : (c1 ^^^ b) % 256 = (c2 ^^^ b) % 256 := by
      rw [xor_mod_256, xor_mod_256, hlo]
    rw [hidx] at h
    have hhi : c1 / 256 = c2 / 256 := Nat.xor_right_inj.mp h
    omega
  · have hbmod : b % 256 = b := Nat.mod_eq_of_lt hb
    have hidx : (c1 ^^^ b) % 256 ≠ (c2 ^^^ b) % 256 := by
      rw [xor_mod_256, xor_mod_256, hbmod]
      intro hx
      exact hlo (Nat.xor_left_inj.mp hx)
    have htop := crcTable_top_ne (Nat.mod_lt _ (by norm_num)) (Nat.mod_lt _ (by norm_num)) hidx
    have h24 : (crcTable ((c1 ^^^ b) % 256) ^^^ c1 / 256) / 16777216
        = (crcTable ((c2 ^^^ b) % 256) ^^^ c2 / 256) / 16777216 := by rw [h]
    rw [xor_div_top, xor_div_top] at h24
    have e1 : c1 / 256 / 16777216 = 0 := by omega
    have e2 : c2 / 256 / 16777216 = 0 := by omega
    rw [e1, e2, Nat.xor_zero, Nat.xor_zero] at h24
    exact htop h24

theorem crcUpdate_ne_byte {b1 b2 : Nat} (c : Nat) (hb1 : b1 < 256) (hb2 : b2 < 256)
    (hne : b1 ≠ b2) : crcUpdate c b1 ≠ crcUpdate c b2 := by
  unfold crcUpdate
  intro h
  have hidx : (c ^^^ b1) % 256 ≠ (c ^^^ b2) % 256 := by
    rw [xor_mod_256, xor_mod_256, Nat.mod_eq_of_lt hb1, Nat.mod_eq_of_lt hb2]
    intro hx
    exact hne (Nat.xor_right_inj.mp hx)
  have htab : crcTable ((c ^^^ b1) % 256) = crcTable ((c ^^^ b2) % 256) :=
    Nat.xor_left_inj.mp h
  exact crcTable_top_ne (Nat.mod_lt _ (by norm_num)) (Nat.mod_lt _ (by norm_num)) hidx
    (by rw [htab])

theorem crcFold_ne {c1 c2 : Nat} (l : List Nat) (hl : ∀ x ∈ l, x < 256)
    (h1 : c1 < 4294967296) (h2 : c2 < 4294967296) (hne : c1 ≠ c2) :
    l.foldl crcUpdate c1 ≠ l.foldl crcUpdate c2 := by
  induction l generalizing c1 c2 with
  | nil => simpa using hne
  | cons b t ih =>
    simp only [List.foldl_cons]
    exact ih (fun x hx => hl x (List.mem_cons_of_mem b hx)) (crcUpdate_lt b h1)
      (crcUpdate_lt b h2)
      (crcUpdate_ne_state b (hl b (List.mem_cons_self b t)) h1 h2 hne)

/-- CRC-32 detects every single-byte difference: two equal-length byte lists
that agree everywhere except at one position have different checksums. -/
theorem crc32_ne_of_single_diff (p s : List Nat) (b1 b2 : Nat)
    (hb1 : b1 < 256) (hb2 : b2 < 256) (hne : b1 ≠ b2) (hs : ∀ x ∈ s, x < 256) :
    crc32 (p ++ b1 :: s) ≠ crc32 (p ++ b2 :: s) := by
  unfold crc32
  intro h
  have hf := Nat.xor_left_inj.mp h
  rw [List.foldl_append, List.foldl_append] at hf
  simp only [List.foldl_cons] at hf
  have hcb : List.foldl crcUpdate 4294967295 p < 4294967296 := crcFold_lt p (by norm_num)
  exact crcFold_ne s hs (crcUpdate_lt _ hcb) (crcUpdate_lt _ hcb)
    (crcUpdate_ne_byte _ hb1 hb2 hne) hf

/- ## Characterizing the validated chunk parser on framed input -/

theorem tryFromBytes_valid {t0 t1 t2 t3 : Nat}
    (h0 : ChunkType.isValidByte t0 = true) (h1 : ChunkType.isValidByte t1 = true)
    (h2 : ChunkType.isValidByte t2 = true) (h3 : ChunkType.isValidByte t3 = true) :
    ChunkType.tryFromBytes t0 t1 t2 t3 = .ok ⟨t0, t1, t2, t3⟩ := by
  unfold ChunkType.tryFromBytes
  rw [h0, h1, h2, h3]
  simp

/-- `Chunk::try_from` on a correctly framed buffer with a valid type code:
it succeeds exactly when the wire CRC equals the recomputed CRC over
type+data, and otherwise fails with the CRC-mismatch error. -/
theorem tryFrom_frame (t0 t1 t2 t3 : Nat) (d : List Nat) (w : Nat)
    (hv : ChunkType.lettersOk ⟨t0, t1, t2, t3⟩ = true)
    (hlen : d.length < 4294967296) (hw : w < 4294967296) :
    Chunk.tryFrom (be32Bytes d.length ++ [t0, t1, t2, t3] ++ d ++ be32Bytes w)
      = if w = crc32 ([t0, t1, t2, t3] ++ d)
        then .ok ⟨d.length, ⟨t0, t1, t2, t3⟩, d, w⟩
        else .error (.crcMismatch (crc32 ([t0, t1, t2, t3] ++ d)) w) := by
  have hl : ChunkType.isValidByte t0 = true ∧ ChunkType.isValidByte t1 = true ∧
      ChunkType.isValidByte t2 = true ∧ ChunkType.isValidByte t3 = true := by
    simpa [ChunkType.lettersOk, Bool.and_eq_true, and_assoc] using hv
  obtain ⟨h0, h1, h2, h3⟩ := hl
  simp only [be32Bytes, List.cons_append, List.nil_append]
  simp only [Chunk.tryFrom, tryFromBytes_valid h0 h1 h2 h3, be32_be32Bytes d.length hlen]
  rw [if_neg (by simp)]
  rw [List.drop_left, List.take_left]
  simp only [be32_be32Bytes w hw, List.cons_append, List.nil_append]

/-- `Chunk::try_from` propagates a type-validation failure as its own error,
before any CRC comparison. -/
theorem tryFrom_badType (n : Nat) (u0 u1 u2 u3 : Nat) (rest : List Nat) (b : Nat)
    (he : ChunkType.tryFromBytes u0 u1 u2 u3 = .error (.invalidByte b)) :
    Chunk.tryFrom (be32Bytes n ++ [u0, u1, u2, u3] ++ rest) = .error (.badType b) := by
  simp only [be32Bytes, List.cons_append, List.nil_append]
  simp only [Chunk.tryFrom, he]

theorem tryFromBytes_error_of_invalid (c0 c1 c2 c3 : Nat)
    (h : (ChunkType.isValidByte c0 && ChunkType.isValidByte c1 &&
      ChunkType.isValidByte c2 && ChunkType.isValidByte c3) = false) :
    ∃ b, ChunkType.tryFromBytes c0 c1 c2 c3 = .error (.invalidByte b) ∧
      ChunkType.isValidByte b = false := by
  unfold ChunkType.tryFromBytes
  by_cases e0 : ChunkType.isValidByte c0 = false
  · exact ⟨c0, by rw [if_pos e0], e0⟩
  · rw [if_neg e0]
    by_cases e1 : ChunkType.isValidByte c1 = false
    · exact ⟨c1, by rw [if_pos e1], e1⟩
    · rw [if_neg e1]
      by_cases e2 : ChunkType.isValidByte c2 = false
      · exact ⟨c2, by rw [if_pos e2], e2⟩
      · rw [if_neg e2]
        by_cases e3 : ChunkType.isValidByte c3 = false
        · exact ⟨c3, by rw [if_pos e3], e3⟩
        · exfalso
          simp only [Bool.not_eq_false] at e0 e1 e2 e3
          rw [e0, e1, e2, e3] at h
          simp at h

theorem tryFromBytes_ok_inv {c0 c1 c2 c3 : Nat} {ct : ChunkType}
    (h : ChunkType.tryFromBytes c0 c1 c2 c3 = .ok ct) :
    ct = ⟨c0, c1, c2, c3⟩ ∧ ChunkType.lettersOk ct = true := by
  unfold ChunkType.tryFromBytes at h
  split_ifs at h with e0 e1 e2 e3
  simp only [Bool.not_eq_false] at e0 e1 e2 e3
  cases h
  exact ⟨rfl, by simp [ChunkType.lettersOk, e0, e1, e2, e3]⟩

theorem fromStr_ok_inv {s : List Nat} {ct : ChunkType}
    (h : ChunkType.fromStr s = .ok ct) : ChunkType.lettersOk ct = true := by
  unfold ChunkType.fromStr at h
  split at h
  all_goals try exact Except.noConfusion h
  split_ifs at h with ha
  exact (tryFromBytes_ok_inv h).2

/-- Claim C2 (amended): for every chunk type whose four bytes pass the letter
check and every byte payload of fewer than 2^32 bytes, parsing the wire bytes
produced by serializing the chunk constructed from (type, data) succeeds and
yields exactly that chunk (same length, type, data and CRC). -/
theorem c2_chunk_roundtrip (t : ChunkType) (d : List Nat)
    (hv : ChunkType.lettersOk t = true) (hlen : d.length < 4294967296) :
    Chunk.tryFrom ((Chunk.new t d).asBytes) = .ok (Chunk.new t d) := by
  obtain ⟨t0, t1, t2, t3⟩ := t
  have hmod : d.length % 4294967296 = d.length := Nat.mod_eq_of_lt hlen
  have hb : (Chunk.new ⟨t0, t1, t2, t3⟩ d).asBytes
      = be32Bytes d.length ++ [t0, t1, t2, t3] ++ d ++
        be32Bytes (crc32 ([t0, t1, t2, t3] ++ d)) := by
    simp [Chunk.new, Chunk.asBytes, ChunkType.bytes, hmod]
  rw [hb, tryFrom_frame t0 t1 t2 t3 d _ hv hlen (crc32_lt _), if_pos rfl]
  simp [Chunk.new, ChunkType.bytes, hmod]

/-- Witness for C2 at type RuSt and payload [72, 105]. -/
theorem c2_chunk_roundtrip_witness :
    Chunk.tryFrom ((Chunk.new ⟨82, 117, 83, 116⟩ [72, 105]).asBytes)
      = .ok (Chunk.new ⟨82, 117, 83, 116⟩ [72, 105]) :=
  c2_chunk_roundtrip ⟨82, 117, 83, 116⟩ [72, 105] (by decide) (by decide)

theorem tryFrom_zeroWrap_aux (S : List Nat) :
    Chunk.tryFrom ((0 : Nat) :: 0 :: 0 :: 0 :: 82 :: 117 :: 83 :: 116 :: 0 :: 0 :: 0 :: 0 :: S)
      = .error (.crcMismatch (crc32 [82, 117, 83, 116]) 0) := by
  simp only [Chunk.tryFrom,
    @tryFromBytes_valid 82 117 83 116 (by decide) (by decide) (by decide) (by decide)]
  simp only [show be32 0 0 0 0 = 0 from rfl]
  rw [if_neg (Nat.not_lt_zero _)]
  simp only [List.drop_zero, List.take_zero, List.append_nil]
  rw [if_neg (by decide)]
  simp only [show be32 0 0 0 0 = 0 from rfl]

theorem asBytes_wrap_aux (T : List Nat)
    (hlen : ((0 : Nat) :: 0 :: 0 :: 0 :: T).length = 4294967296) :
    (Chunk.new ⟨82, 117, 83, 116⟩ ((0 : Nat) :: 0 :: 0 :: 0 :: T)).asBytes
      = 0 :: 0 :: 0 :: 0 :: 82 :: 117 :: 83 :: 116 :: 0 :: 0 :: 0 :: 0 ::
        (T ++ be32Bytes (crc32 ([82, 117, 83, 116] ++ (0 : Nat) :: 0 :: 0 :: 0 :: T))) := by
  simp only [Chunk.new, Chunk.asBytes, ChunkType.bytes, hlen]
  rw [show (4294967296 : Nat) % 4294967296 = 0 from by norm_num]
  rw [show be32Bytes 0 = [0, 0, 0, 0] from rfl]
  simp only [List.cons_append, List.nil_append]

/-- Claim C2 counterexample: for the valid type RuSt and the payload of
exactly 2^32 zero bytes, the length field wraps to 0, so parsing the chunk's
own serialization reads an empty data region and the first four payload bytes
as the wire CRC, and fails with a CRC mismatch instead of returning the
constructed chunk. -/
theorem c2_chunk_roundtrip_counterexample :
    Chunk.tryFrom ((Chunk.new ⟨82, 117, 83, 116⟩ (List.replicate 4294967296 0)).asBytes)
      ≠ .ok (Chunk.new ⟨82, 117, 83, 116⟩ (List.replicate 4294967296 0)) := by
  have h4 : List.replicate 4294967296 (0 : Nat)
      = 0 :: 0 :: 0 :: 0 :: List.replicate 4294967292 0 := by
    rw [show (4294967296 : Nat) = 4 + 4294967292 from by norm_num, List.replicate_add]
    rfl
  have hlen : ((0 : Nat) :: 0 :: 0 :: 0 :: List.replicate 4294967292 0).length = 4294967296 := by
    rw [List.length_cons, List.length_cons, List.length_cons, List.length_cons,
      List.length_replicate]
  rw [h4, asBytes_wrap_aux _ hlen, tryFrom_zeroWrap_aux]
  intro h
  exact Except.noConfusion h

theorem validByte_lt {b : Nat} (h : ChunkType.isValidByte b = true) : b < 256 := by
  simp only [ChunkType.isValidByte, Bool.or_eq_true, Bool.and_eq_true,
    decide_eq_true_eq] at h
  omega

theorem xor_flip_ne (b : Nat) (k : Nat) : b ^^^ 2 ^ k ≠ b := by
  intro h
  have h0 : b ^^^ 2 ^ k = b ^^^ 0 := by rw [Nat.xor_zero]; exact h
  have h2 := Nat.xor_right_inj.mp h0
  have h3 : 0 < 2 ^ k := Nat.pos_pow_of_pos k (by norm_num)
  omega

theorem xor_flip_lt {b : Nat} (hb : b < 256) {k : Nat} (hk : k < 8) : b ^^^ 2 ^ k < 256 := by
  have h1 : 2 ^ k ≤ 2 ^ 7 := Nat.pow_le_pow_right (by norm_num) (by omega)
  have h2 : b < 2 ^ 8 := by omega
  have h3 : 2 ^ k < 2 ^ 8 := by omega
  have := Nat.xor_lt_two_pow h2 h3
  omega

/-- The legacy parser accepts a correctly framed buffer with any wire CRC:
it performs no CRC check at all. -/
theorem fromBytesPng_frame (t0 t1 t2 t3 : Nat) (d : List Nat) (w : Nat)
    (hw : w < 4294967296) :
    Chunk.fromBytesPng d.length ([t0, t1, t2, t3] ++ d ++ be32Bytes w)
      = some ⟨d.length, ⟨t0, t1, t2, t3⟩, d, w⟩ := by
  simp only [List.cons_append, List.nil_append]
  simp only [Chunk.fromBytesPng, ChunkType.fromBytesOld]
  rw [if_neg (by simp [be32Bytes])]
  rw [if_neg (by simp)]
  rw [List.drop_left, List.take_left]
  simp only [be32Bytes]
  simp only [be32_be32Bytes w hw]

theorem bytesLt_append {l1 d : List Nat} (h1 : ∀ x ∈ l1, x < 256)
    (hd : ∀ x ∈ d, x < 256) : ∀ x ∈ l1 ++ d, x < 256 := by
  intro x hx
  rcases List.mem_append.mp hx with hx | hx
  · exact h1 x hx
  · exact hd x hx

/-- Claim C3 (amended): `Chunk::try_from` recomputes the IEEE CRC-32 over the
4 type bytes followed by the data and fails with the CRC-mismatch error
whenever the wire CRC differs from the recomputed value; flipping any single
bit in the data region of a well-formed chunk buffer yields that CRC-mismatch
failure; flipping a single bit in the type region makes parsing fail, with the
CRC-mismatch error when the flipped byte is still an ASCII letter, and with
the invalid-type-byte error otherwise; and the legacy `Chunk::from_bytes`
path of src/png.rs performs no CRC check at all, accepting any wire CRC. -/
theorem c3_crc_integrity (t0 t1 t2 t3 : Nat) (d : List Nat)
    (hv : ChunkType.lettersOk ⟨t0, t1, t2, t3⟩ = true)
    (hd : ∀ x ∈ d, x < 256) (hlen : d.length < 4294967296) :
    (∀ w, w < 4294967296 → w ≠ crc32 ([t0, t1, t2, t3] ++ d) →
      Chunk.tryFrom (be32Bytes d.length ++ [t0, t1, t2, t3] ++ d ++ be32Bytes w)
        = .error (.crcMismatch (crc32 ([t0, t1, t2, t3] ++ d)) w)) ∧
    (∀ d1 bb d2 k, d = d1 ++ bb :: d2 → k < 8 →
      Chunk.tryFrom (be32Bytes d.length ++ [t0, t1, t2, t3] ++
          (d1 ++ (bb ^^^ 2 ^ k) :: d2) ++ be32Bytes (crc32 ([t0, t1, t2, t3] ++ d)))
        = .error (.crcMismatch
            (crc32 ([t0, t1, t2, t3] ++ (d1 ++ (bb ^^^ 2 ^ k) :: d2)))
            (crc32 ([t0, t1, t2, t3] ++ d)))) ∧
    (∀ k, k < 8 →
      (Chunk.tryFrom (be32Bytes d.length ++ [t0 ^^^ 2 ^ k, t1, t2, t3] ++ d ++
          be32Bytes (crc32 ([t0, t1, t2, t3] ++ d)))
        = if ChunkType.isValidByte (t0 ^^^ 2 ^ k) = true
          then .error (.crcMismatch (crc32 ([t0 ^^^ 2 ^ k, t1, t2, t3] ++ d))
            (crc32 ([t0, t1, t2, t3] ++ d)))
          else .error (.badType (t0 ^^^ 2 ^ k))) ∧
      (Chunk.tryFrom (be32Bytes d.length ++ [t0, t1 ^^^ 2 ^ k, t2, t3] ++ d ++
          be32Bytes (crc32 ([t0, t1, t2, t3] ++ d)))
        = if ChunkType.isValidByte (t1 ^^^ 2 ^ k) = true
          then .error (.crcMismatch (crc32 ([t0, t1 ^^^ 2 ^ k, t2, t3] ++ d))
            (crc32 ([t0, t1, t2, t3] ++ d)))
          else .error (.badType (t1 ^^^ 2 ^ k))) ∧
      (Chunk.tryFrom (be32Bytes d.length ++ [t0, t1, t2 ^^^ 2 ^ k, t3] ++ d ++
          be32Bytes (crc32 ([t0, t1, t2, t3] ++ d)))
        = if ChunkType.isValidByte (t2 ^^^ 2 ^ k) = true
          then .error (.crcMismatch (crc32 ([t0, t1, t2 ^^^ 2 ^ k, t3] ++ d))
            (crc32 ([t0, t1, t2, t3] ++ d)))
          else .error (.badType (t2 ^^^ 2 ^ k))) ∧
      (Chunk.tryFrom (be32Bytes d.length ++ [t0, t1, t2, t3 ^^^ 2 ^ k] ++ d ++
          be32Bytes (crc32 ([t0, t1, t2, t3] ++ d)))
        = if ChunkType.isValidByte (t3 ^^^ 2 ^ k) = true
          then .error (.crcMismatch (crc32 ([t0, t1, t2, t3 ^^^ 2 ^ k] ++ d))
            (crc32 ([t0, t1, t2, t3] ++ d)))
          else .error (.badType (t3 ^^^ 2 ^ k)))) ∧
    (∀ w, w < 4294967296 →
      Chunk.fromBytesPng d.length ([t0, t1, t2, t3] ++ d ++ be32Bytes w)
        = some ⟨d.length, ⟨t0, t1, t2, t3⟩, d, w⟩) := by
  have hts : ChunkType.isValidByte t0 = true ∧ ChunkType.isValidByte t1 = true ∧
      ChunkType.isValidByte t2 = true ∧ ChunkType.isValidByte t3 = true := by
    simpa [ChunkType.lettersOk, Bool.and_eq_true, and_assoc] using hv
  obtain ⟨hvt0, hvt1, hvt2, hvt3⟩ := hts
  have hb0 := validByte_lt hvt0
  have hb1 := validByte_lt hvt1
  have hb2 := validByte_lt hvt2
  have hb3 := validByte_lt hvt3
  refine ⟨?_, ?_, ?_, ?_⟩
  · intro w hw hne
    rw [tryFrom_frame t0 t1 t2 t3 d w hv hlen hw, if_neg hne]
  · intro d1 bb d2 k hsplit hk
    have hbb : bb < 256 := hd bb (by rw [hsplit]; exact List.mem_append_right _ (List.mem_cons_self _ _))
    have hbb2 : bb ^^^ 2 ^ k < 256 := xor_flip_lt hbb hk
    have hd2 : ∀ x ∈ d2, x < 256 := by
      intro x hx
      exact hd x (by rw [hsplit]; exact List.mem_append_right _ (List.mem_cons_of_mem _ hx))
    have hlen2 : (d1 ++ (bb ^^^ 2 ^ k) :: d2).length = d.length := by
      rw [hsplit]; simp
    have hcrcne : crc32 ([t0, t1, t2, t3] ++ d)
        ≠ crc32 ([t0, t1, t2, t3] ++ (d1 ++ (bb ^^^ 2 ^ k) :: d2)) := by
      have hx := crc32_ne_of_single_diff ([t0, t1, t2, t3] ++ d1) d2 bb (bb ^^^ 2 ^ k)
        hbb hbb2 (Ne.symm (xor_flip_ne bb k)) hd2
      rw [hsplit]
      simpa [List.append_assoc] using hx
    have hfr := tryFrom_frame t0 t1 t2 t3 (d1 ++ (bb ^^^ 2 ^ k) :: d2)
      (crc32 ([t0, t1, t2, t3] ++ d)) hv (by rw [hlen2]; exact hlen) (crc32_lt _)
    rw [hlen2] at hfr
    rw [hfr, if_neg hcrcne]
  · intro k hk
    refine ⟨?_, ?_, ?_, ?_⟩
    · by_cases hvalid : ChunkType.isValidByte (t0 ^^^ 2 ^ k) = true
      · rw [if_pos hvalid]
        have hv2 : ChunkType.lettersOk ⟨t0 ^^^ 2 ^ k, t1, t2, t3⟩ = true := by
          simp [ChunkType.lettersOk, hvalid, hvt1, hvt2, hvt3]
        have hcrcne : crc32 ([t0, t1, t2, t3] ++ d)
            ≠ crc32 ([t0 ^^^ 2 ^ k, t1, t2, t3] ++ d) := by
          have hs : ∀ x ∈ [t1, t2, t3] ++ d, x < 256 := by
            refine bytesLt_append ?_ hd
            intro x hx
            simp only [List.mem_cons, List.not_mem_nil, or_false] at hx
            rcases hx with rfl | rfl | rfl <;> omega
          have hx := crc32_ne_of_single_diff [] ([t1, t2, t3] ++ d) t0 (t0 ^^^ 2 ^ k)
            hb0 (xor_flip_lt hb0 hk) (Ne.symm (xor_flip_ne t0 k)) hs
          simpa using hx
        rw [tryFrom_frame (t0 ^^^ 2 ^ k) t1 t2 t3 d (crc32 ([t0, t1, t2, t3] ++ d))
          hv2 hlen (crc32_lt _), if_neg hcrcne]
      · rw [if_neg hvalid]
        have hvf : ChunkType.isValidByte (t0 ^^^ 2 ^ k) = false := by
          simpa using hvalid
        have hbt : ChunkType.tryFromBytes (t0 ^^^ 2 ^ k) t1 t2 t3
            = .error (.invalidByte (t0 ^^^ 2 ^ k)) := by
          unfold ChunkType.tryFromBytes
          rw [if_pos hvf]
        have hgen := tryFrom_badType d.length (t0 ^^^ 2 ^ k) t1 t2 t3
          (d ++ be32Bytes (crc32 ([t0, t1, t2, t3] ++ d))) (t0 ^^^ 2 ^ k) hbt
        simpa [List.append_assoc] using hgen
    · by_cases hvalid : ChunkType.isValidByte (t1 ^^^ 2 ^ k) = true
      · rw [if_pos hvalid]
        have hv2 : ChunkType.lettersOk ⟨t0, t1 ^^^ 2 ^ k, t2, t3⟩ = true := by
          simp [ChunkType.lettersOk, hvalid, hvt0, hvt2, hvt3]
        have hcrcne : crc32 ([t0, t1, t2, t3] ++ d)
            ≠ crc32 ([t0, t1 ^^^ 2 ^ k, t2, t3] ++ d) := by
          have hs : ∀ x ∈ [t2, t3] ++ d, x < 256 := by
            refine bytesLt_append ?_ hd
            intro x hx
            simp only [List.mem_cons, List.not_mem_nil, or_false] at hx
            rcases hx with rfl | rfl <;> omega
          have hx := crc32_ne_of_single_diff [t0] ([t2, t3] ++ d) t1 (t1 ^^^ 2 ^ k)
            hb1 (xor_flip_lt hb1 hk) (Ne.symm (xor_flip_ne t1 k)) hs
          simpa using hx
        rw [tryFrom_frame t0 (t1 ^^^ 2 ^ k) t2 t3 d (crc32 ([t0, t1, t2, t3] ++ d))
          hv2 hlen (crc32_lt _), if_neg hcrcne]
      · rw [if_neg hvalid]
        have hvf : ChunkType.isValidByte (t1 ^^^ 2 ^ k) = false := by
          simpa using hvalid
        have hbt : ChunkType.tryFromBytes t0 (t1 ^^^ 2 ^ k) t2 t3
            = .error (.invalidByte (t1 ^^^ 2 ^ k)) := by
          unfold ChunkType.tryFromBytes
          rw [if_neg (by simp [hvt0]), if_pos hvf]
        have hgen := tryFrom_badType d.length t0 (t1 ^^^ 2 ^ k) t2 t3
          (d ++ be32Bytes (crc32 ([t0, t1, t2, t3] ++ d))) (t1 ^^^ 2 ^ k) hbt
        simpa [List.append_assoc] using hgen
    · by_cases hvalid : ChunkType.isValidByte (t2 ^^^ 2 ^ k) = true
      · rw [if_pos hvalid]
        have hv2 : ChunkType.lettersOk ⟨t0, t1, t2 ^^^ 2 ^ k, t3⟩ = true := by
          simp [ChunkType.lettersOk, hvalid, hvt0, hvt1, hvt3]
        have hcrcne : crc32 ([t0, t1, t2, t3] ++ d)
            ≠ crc32 ([t0, t1, t2 ^^^ 2 ^ k, t3] ++ d) := by
          have hs : ∀ x ∈ [t3] ++ d, x < 256 := by
            refine bytesLt_append ?_ hd
            intro x hx
            simp only [List.mem_cons, List.not_mem_nil, or_false] at hx
            subst hx; omega
          have hx := crc32_ne_of_single_diff [t0, t1] ([t3] ++ d) t2 (t2 ^^^ 2 ^ k)
            hb2 (xor_flip_lt hb2 hk) (Ne.symm (xor_flip_ne t2 k)) hs
          simpa using hx
        rw [tryFrom_frame t0 t1 (t2 ^^^ 2 ^ k) t3 d (crc32 ([t0, t1, t2, t3] ++ d))
          hv2 hlen (crc32_lt _), if_neg hcrcne]
      · rw [if_neg hvalid]
        have hvf : ChunkType.isValidByte (t2 ^^^ 2 ^ k) = false := by
          simpa using hvalid
        have hbt : ChunkType.tryFromBytes t0 t1 (t2 ^^^ 2 ^ k) t3
            = .error (.invalidByte (t2 ^^^ 2 ^ k)) := by
          unfold ChunkType.tryFromBytes
          rw [if_neg (by simp [hvt0]), if_neg (by simp [hvt1]), if_pos hvf]
        have hgen := tryFrom_badType d.length t0 t1 (t2 ^^^ 2 ^ k) t3
          (d ++ be32Bytes (crc32 ([t0, t1, t2, t3] ++ d))) (t2 ^^^ 2 ^ k) hbt
        simpa [List.append_assoc] using hgen
    · by_cases hvalid : ChunkType.isValidByte (t3 ^^^ 2 ^ k) = true
      · rw [if_pos hvalid]
        have hv2 : ChunkType.lettersOk ⟨t0, t1, t2, t3 ^^^ 2 ^ k⟩ = true := by
          simp [ChunkType.lettersOk, hvalid, hvt0, hvt1, hvt2]
        have hcrcne : crc32 ([t0, t1, t2, t3] ++ d)
            ≠ crc32 ([t0, t1, t2, t3 ^^^ 2 ^ k] ++ d) := by
          have hx := crc32_ne_of_single_diff [t0, t1, t2] d t3 (t3 ^^^ 2 ^ k)
            hb3 (xor_flip_lt hb3 hk) (Ne.symm (xor_flip_ne t3 k)) hd
          simpa using hx
        rw [tryFrom_frame t0 t1 t2 (t3 ^^^ 2 ^ k) d (crc32 ([t0, t1, t2, t3] ++ d))
          hv2 hlen (crc32_lt _), if_neg hcrcne]
      · rw [if_neg hvalid]
        have hvf : ChunkType.isValidByte (t3 ^^^ 2 ^ k) = false := by
          simpa using hvalid
        have hbt : ChunkType.tryFromBytes t0 t1 t2 (t3 ^^^ 2 ^ k)
            = .error (.invalidByte (t3 ^^^ 2 ^ k)) := by
          unfold ChunkType.tryFromBytes
          rw [if_neg (by simp [hvt0]), if_neg (by simp [hvt1]), if_neg (by simp [hvt2]),
            if_pos hvf]
        have hgen := tryFrom_badType d.length t0 t1 t2 (t3 ^^^ 2 ^ k)
          (d ++ be32Bytes (crc32 ([t0, t1, t2, t3] ++ d))) (t3 ^^^ 2 ^ k) hbt
        simpa [List.append_assoc] using hgen
  · intro w hw
    exact fromBytesPng_frame t0 t1 t2 t3 d w hw

/-- Witness for C3: type RuSt, payload [1], flipping bit 0 of the single data
byte turns the parse into a CRC-mismatch failure. -/
theorem c3_crc_integrity_witness :
    Chunk.tryFrom (be32Bytes 1 ++ [82, 117, 83, 116] ++ [0] ++
        be32Bytes (crc32 [82, 117, 83, 116, 1]))
      = .error (.crcMismatch (crc32 [82, 117, 83, 116, 0])
          (crc32 [82, 117, 83, 116, 1])) := by
  have H := (c3_crc_integrity 82 117 83 116 [1] (by decide) (by decide) (by decide)).2.1
    [] 1 [] 0 rfl (by decide)
  simpa using H

/-- Claim C3 counterexample: take the well-formed wire bytes of the chunk with
type RuSt and empty payload, and flip bit 6 of type byte 0 (82 becomes 18,
which is not an ASCII letter).  Parsing the flipped buffer fails with the
invalid-type-byte error, not with CrcMismatch as the claim requires. -/
theorem c3_crc_integrity_counterexample :
    ((Chunk.new ⟨82, 117, 83, 116⟩ []).asBytes
        = [0, 0, 0, 0, 82, 117, 83, 116] ++ be32Bytes (crc32 [82, 117, 83, 116])) ∧
    Chunk.tryFrom ([0, 0, 0, 0, 82 ^^^ 64, 117, 83, 116] ++
        be32Bytes (crc32 [82, 117, 83, 116]))
      = .error (.badType 18) := by
  exact ⟨rfl, rfl⟩

/-- One iteration of the chunk-reading loop on a correctly framed record. -/
theorem parseChunksF_step (f : Nat) (t0 t1 t2 t3 : Nat) (dta : List Nat) (w : Nat)
    (rest2 : List Nat) (hlen : dta.length + 8 < 4294967296) (hw : w < 4294967296) :
    parseChunksF (f + 1) (be32Bytes dta.length ++ [t0, t1, t2, t3] ++ dta ++
        be32Bytes w ++ rest2)
      = match parseChunksF f rest2 with
        | none => none
        | some cs => some (⟨dta.length, ⟨t0, t1, t2, t3⟩, dta, w⟩ :: cs) := by
  have hY : be32Bytes dta.length ++ [t0, t1, t2, t3] ++ dta ++ be32Bytes w ++ rest2
      = (dta.length / 16777216 % 256) :: (dta.length / 65536 % 256) ::
        (dta.length / 256 % 256) :: (dta.length % 256) ::
        (([t0, t1, t2, t3] ++ dta ++ be32Bytes w) ++ rest2) := by
    simp [be32Bytes, List.cons_append, List.append_assoc]
  rw [hY]
  have hYlen : ([t0, t1, t2, t3] ++ dta ++ be32Bytes w).length = dta.length + 8 := by
    simp [be32Bytes]
  simp only [parseChunksF]
  rw [be32_be32Bytes dta.length (by omega)]
  rw [Nat.mod_eq_of_lt hlen]
  rw [if_neg (by rw [List.length_append, hYlen]; omega)]
  rw [List.take_left' hYlen, List.drop_left' hYlen]
  rw [fromBytesPng_frame t0 t1 t2 t3 dta w hw]

theorem chunksBytes_length (c : Chunk) (cs : List Chunk) :
    (chunksBytes (c :: cs)).length = 12 + c.data.length + (chunksBytes cs).length := by
  simp [chunksBytes, Chunk.asBytes, be32Bytes, ChunkType.bytes]
  omega

/-- The chunk loop re-reads any serialization of well-formed chunks, silently
discarding up to three trailing bytes. -/
theorem parseChunksF_serialized : ∀ (cs : List Chunk) (t : List Nat) (f : Nat),
    (∀ c ∈ cs, WFChunk c) → t.length ≤ 3 → (chunksBytes cs ++ t).length < f →
    parseChunksF f (chunksBytes cs ++ t) = some cs := by
  intro cs
  induction cs with
  | nil =>
    intro t f hwf ht hf
    simp only [chunksBytes, List.nil_append] at hf ⊢
    cases f with
    | zero => omega
    | succ f2 =>
      rcases t with _ | ⟨a, _ | ⟨b, _ | ⟨c, _ | ⟨e, rest⟩⟩⟩⟩
      · rfl
      · rfl
      · rfl
      · rfl
      · simp at ht
  | cons c cs2 ih =>
    intro t f hwf ht hf
    obtain ⟨hl1, hl2, hl3⟩ := hwf c (List.mem_cons_self c cs2)
    cases f with
    | zero => exact absurd hf (Nat.not_lt_zero _)
    | succ f2 =>
      have hshape : chunksBytes (c :: cs2) ++ t
          = be32Bytes c.data.length ++
            [c.chunkType.b0, c.chunkType.b1, c.chunkType.b2, c.chunkType.b3] ++
            c.data ++ be32Bytes c.crc ++ (chunksBytes cs2 ++ t) := by
        rw [show [c.chunkType.b0, c.chunkType.b1, c.chunkType.b2, c.chunkType.b3]
          = c.chunkType.bytes from rfl]
        rw [show c.data.length = c.length from hl1.symm]
        simp [chunksBytes, Chunk.asBytes, List.append_assoc]
      rw [hshape]
      rw [parseChunksF_step f2 _ _ _ _ c.data c.crc _ (by omega) hl3]
      have hrec : parseChunksF f2 (chunksBytes cs2 ++ t) = some cs2 := by
        apply ih t f2 (fun x hx => hwf x (List.mem_cons_of_mem c hx)) ht
        have := chunksBytes_length c cs2
        rw [List.length_append] at hf ⊢
        omega
      rw [hrec]
      have heta : (⟨c.data.length, ⟨c.chunkType.b0, c.chunkType.b1, c.chunkType.b2,
          c.chunkType.b3⟩, c.data, c.crc⟩ : Chunk) = c := by
        rw [show c.data.length = c.length from hl1.symm]
      rw [heta]

theorem list_four {l : List Nat} (h : l.length = 4) : ∃ a b c d, l = [a, b, c, d] := by
  rcases l with _ | ⟨a, _ | ⟨b, _ | ⟨c, _ | ⟨d, rest⟩⟩⟩⟩ <;> simp_all

/-- What a successful legacy chunk parse of an exactly framed slice tells us. -/
theorem fromBytesPng_inv {L : Nat} {bytes : List Nat} {ch : Chunk}
    (hlen : bytes.length = L + 8) (hb : ∀ x ∈ bytes, x < 256)
    (h : Chunk.fromBytesPng L bytes = some ch) :
    ch.length = L ∧ ch.data.length = L ∧ ch.crc < 4294967296 ∧
      ch.asBytes = be32Bytes L ++ bytes := by
  rcases bytes with _ | ⟨t0, _ | ⟨t1, _ | ⟨t2, _ | ⟨t3, rest⟩⟩⟩⟩
  · simp only [List.length_nil] at hlen; omega
  · simp only [List.length_cons, List.length_nil] at hlen; omega
  · simp only [List.length_cons, List.length_nil] at hlen; omega
  · simp only [List.length_cons, List.length_nil] at hlen; omega
  · have hrl : rest.length = L + 4 := by
      simp only [List.length_cons] at hlen; omega
    simp only [Chunk.fromBytesPng] at h
    rw [if_neg (by simp only [List.length_cons]; omega)] at h
    rw [if_neg (by omega)] at h
    have hdl : (rest.drop L).length = 4 := by rw [List.length_drop]; omega
    obtain ⟨c0, c1, c2, c3, hdrop⟩ := list_four hdl
    rw [hdrop] at h
    simp only [Option.some.injEq] at h
    subst h
    have hcb : ∀ x ∈ [c0, c1, c2, c3], x < 256 := by
      intro x hx
      rw [← hdrop] at hx
      have hx2 := List.drop_subset L rest hx
      exact hb x (by simp [hx2])
    have hcrc : be32 c0 c1 c2 c3 < 4294967296 := by
      apply be32_lt <;> (apply hcb; simp)
    refine ⟨rfl, ?_, hcrc, ?_⟩
    · simp only [List.length_take]
      omega
    · simp only [Chunk.asBytes, ChunkType.bytes, ChunkType.fromBytesOld]
      rw [be32Bytes_be32 c0 c1 c2 c3 (hcb c0 (by simp)) (hcb c1 (by simp))
        (hcb c2 (by simp)) (hcb c3 (by simp))]
      have hsplit : rest = rest.take L ++ [c0, c1, c2, c3] := by
        rw [← hdrop]
        exact (List.take_append_drop L rest).symm
      conv_rhs => rw [hsplit]
      simp [List.append_assoc]

/-- What a successful run of the chunk loop tells us: every parsed chunk is
well-formed, and the input is exactly the chunks' serialization followed by at
most three leftover bytes. -/
theorem parseChunksF_inv : ∀ (f : Nat) (r : List Nat) (cs : List Chunk),
    (∀ x ∈ r, x < 256) → parseChunksF f r = some cs →
    (∀ c ∈ cs, WFChunk c) ∧ ∃ t, t.length ≤ 3 ∧ r = chunksBytes cs ++ t := by
  intro f
  induction f with
  | zero =>
    intro r cs hr h
    exact absurd h (by simp [parseChunksF])
  | succ f2 ih =>
    intro r cs hr h
    rcases r with _ | ⟨y0, _ | ⟨y1, _ | ⟨y2, _ | ⟨y3, rest⟩⟩⟩⟩
    · simp only [parseChunksF, Option.some.injEq] at h
      subst h
      exact ⟨by simp, [], by simp, by simp [chunksBytes]⟩
    · simp only [parseChunksF, Option.some.injEq] at h
      subst h
      exact ⟨by simp, [y0], by simp, by simp [chunksBytes]⟩
    · simp only [parseChunksF, Option.some.injEq] at h
      subst h
      exact ⟨by simp, [y0, y1], by simp, by simp [chunksBytes]⟩
    · simp only [parseChunksF, Option.some.injEq] at h
      subst h
      exact ⟨by simp, [y0, y1, y2], by simp, by simp [chunksBytes]⟩
    · have hrest : ∀ x ∈ rest, x < 256 := fun x hx => hr x (by simp [hx])
      have hy0 : y0 < 256 := hr y0 (by simp)
      have hy1 : y1 < 256 := hr y1 (by simp)
      have hy2 : y2 < 256 := hr y2 (by simp)
      have hy3 : y3 < 256 := hr y3 (by simp)
      simp only [parseChunksF] at h
      by_cases hcl : rest.length < (be32 y0 y1 y2 y3 + 8) % 4294967296
      · rw [if_pos hcl] at h
        exact absurd h (by simp)
      · rw [if_neg hcl] at h
        cases hfb : Chunk.fromBytesPng (be32 y0 y1 y2 y3)
            (rest.take ((be32 y0 y1 y2 y3 + 8) % 4294967296)) with
        | none =>
          rw [hfb] at h
          exact absurd h (by simp)
        | some ch =>
          rw [hfb] at h
          cases hrec : parseChunksF f2
              (rest.drop ((be32 y0 y1 y2 y3 + 8) % 4294967296)) with
          | none =>
            rw [hrec] at h
            exact absurd h (by simp)
          | some cs2 =>
            rw [hrec] at h
            simp only [Option.some.injEq] at h
            subst h
            have hLlt : be32 y0 y1 y2 y3 < 4294967296 := be32_lt y0 y1 y2 y3 hy0 hy1 hy2 hy3
            have htl : (rest.take ((be32 y0 y1 y2 y3 + 8) % 4294967296)).length
                = (be32 y0 y1 y2 y3 + 8) % 4294967296 := by
              rw [List.length_take]
              omega
            have hcl8 : 8 ≤ (be32 y0 y1 y2 y3 + 8) % 4294967296 := by
              by_contra hlt
              unfold Chunk.fromBytesPng at hfb
              rw [if_pos (by omega)] at hfb
              exact Option.noConfusion hfb
            have hclval : (be32 y0 y1 y2 y3 + 8) % 4294967296 = be32 y0 y1 y2 y3 + 8 := by
              omega
            have hinv := @fromBytesPng_inv (be32 y0 y1 y2 y3)
              (rest.take ((be32 y0 y1 y2 y3 + 8) % 4294967296)) ch
              (by rw [htl, hclval]) (fun x hx => hrest x (List.take_subset _ _ hx)) hfb
            obtain ⟨hchL, hchdata, hchcrc, hchbytes⟩ := hinv
            have hWFch : WFChunk ch := ⟨by rw [hchL, hchdata], by rw [hchL]; omega, hchcrc⟩
            obtain ⟨hwf2, t, ht3, hteq⟩ := ih
              (rest.drop ((be32 y0 y1 y2 y3 + 8) % 4294967296)) cs2
              (fun x hx => hrest x (List.drop_subset _ _ hx)) hrec
            refine ⟨?_, t, ht3, ?_⟩
            · intro x hx
              rcases List.mem_cons.mp hx with rfl | hx
              · exact hWFch
              · exact hwf2 x hx
            · have hr4 : be32Bytes (be32 y0 y1 y2 y3) = [y0, y1, y2, y3] :=
                be32Bytes_be32 y0 y1 y2 y3 hy0 hy1 hy2 hy3
              calc y0 :: y1 :: y2 :: y3 :: rest
                  = [y0, y1, y2, y3] ++ rest := rfl
                _ = be32Bytes (be32 y0 y1 y2 y3) ++
                    (rest.take ((be32 y0 y1 y2 y3 + 8) % 4294967296) ++
                     rest.drop ((be32 y0 y1 y2 y3 + 8) % 4294967296)) := by
                    rw [hr4, List.take_append_drop]
                _ = (be32Bytes (be32 y0 y1 y2 y3) ++
                     rest.take ((be32 y0 y1 y2 y3 + 8) % 4294967296)) ++
                    rest.drop ((be32 y0 y1 y2 y3 + 8) % 4294967296) := by
                    rw [List.append_assoc]
                _ = ch.asBytes ++ (chunksBytes cs2 ++ t) := by rw [hchbytes, hteq]
                _ = chunksBytes (ch :: cs2) ++ t := by
                    simp [chunksBytes, List.append_assoc]

theorem parseChunks_serialized (cs : List Chunk) (t : List Nat)
    (hwf : ∀ c ∈ cs, WFChunk c) (ht : t.length ≤ 3) :
    parseChunks (chunksBytes cs ++ t) = some cs := by
  unfold parseChunks
  exact parseChunksF_serialized cs t _ hwf ht (by omega)

/-- Claim C1 (amended): for every byte buffer b successfully parsed to a
Container p, re-parsing p's serialization yields a Container structurally
equal to p (same header bytes, same ordered chunk list); and b equals p's
serialization followed by at most three leftover trailing bytes, so the
serialization reproduces b exactly whenever b ends at a chunk boundary. -/
theorem c1_container_roundtrip (b : List Nat) (p : Png)
    (hb : ∀ x ∈ b, x < 256) (h : Png.fromBytes b = some p) :
    Png.fromBytes p.asBytes = some p ∧ ∃ t, t.length ≤ 3 ∧ b = p.asBytes ++ t := by
  unfold Png.fromBytes at h
  by_cases hlen : b.length < 8
  · rw [if_pos hlen] at h
    exact absurd h (by simp)
  · rw [if_neg hlen] at h
    cases hpc : parseChunks (b.drop 8) with
    | none =>
      rw [hpc] at h
      exact absurd h (by simp)
    | some cs =>
      rw [hpc] at h
      simp only [Option.some.injEq] at h
      subst h
      obtain ⟨hwf, t, ht3, hteq⟩ := parseChunksF_inv ((b.drop 8).length + 1) (b.drop 8) cs
        (fun x hx => hb x (List.drop_subset _ _ hx)) hpc
      have htake8 : (b.take 8).length = 8 := by
        rw [List.length_take]
        omega
      have hasb : (Png.mk (b.take 8) cs).asBytes = b.take 8 ++ chunksBytes cs := rfl
      constructor
      · unfold Png.fromBytes
        rw [if_neg (by rw [hasb, List.length_append, htake8]; omega)]
        rw [hasb, List.drop_left' htake8]
        have hser : parseChunks (chunksBytes cs) = some cs := by
          have := parseChunks_serialized cs [] hwf (by simp)
          simpa using this
        rw [hser]
        simp only [List.take_left' htake8]
      · refine ⟨t, ht3, ?_⟩
        conv_lhs => rw [← List.take_append_drop 8 b]
        rw [hteq, hasb, List.append_assoc]

/-- Witness for C1: a container with one empty RuSt chunk followed by a
single leftover byte. -/
theorem c1_container_roundtrip_witness :
    Png.fromBytes (Png.asBytes ⟨stdHeader, [⟨0, ⟨82, 117, 83, 116⟩, [], 0⟩]⟩)
      = some ⟨stdHeader, [⟨0, ⟨82, 117, 83, 116⟩, [], 0⟩]⟩ ∧
    ∃ t, t.length ≤ 3 ∧
      (stdHeader ++ [0, 0, 0, 0, 82, 117, 83, 116, 0, 0, 0, 0, 7] : List Nat)
        = Png.asBytes ⟨stdHeader, [⟨0, ⟨82, 117, 83, 116⟩, [], 0⟩]⟩ ++ t :=
  c1_container_roundtrip (stdHeader ++ [0, 0, 0, 0, 82, 117, 83, 116, 0, 0, 0, 0, 7])
    ⟨stdHeader, [⟨0, ⟨82, 117, 83, 116⟩, [], 0⟩]⟩ (by decide) (by rfl)

/-- Claim C1 counterexample: the 9-byte buffer consisting of the magic header
followed by one extra byte parses successfully (the loop treats the short
read of the next length field as end of stream), yet the parsed container
serializes back to just the 8 header bytes, not to the original buffer. -/
theorem c1_container_roundtrip_counterexample :
    Png.fromBytes (stdHeader ++ [0]) = some ⟨stdHeader, []⟩ ∧
    Png.asBytes ⟨stdHeader, []⟩ ≠ stdHeader ++ [0] :=
  ⟨rfl, by decide⟩

/-- Claim C9: a buffer holding the valid magic header, the serialization of
any well-formed chunks, and then one to three trailing garbage bytes parses
successfully, and the trailing bytes are silently discarded. -/
theorem c9_tolerant_eos (cs : List Chunk) (t : List Nat)
    (hwf : ∀ c ∈ cs, WFChunk c) (_h1 : 1 ≤ t.length) (h3 : t.length ≤ 3) :
    Png.fromBytes (stdHeader ++ chunksBytes cs ++ t) = some ⟨stdHeader, cs⟩ := by
  unfold Png.fromBytes
  have hsh : stdHeader.length = 8 := rfl
  rw [List.append_assoc]
  rw [if_neg (by rw [List.length_append, hsh]; omega)]
  rw [List.drop_left' hsh]
  rw [parseChunks_serialized cs t hwf h3]
  simp only [List.take_left' hsh]

/-- Witness for C9: one empty RuSt chunk and a single trailing byte 99. -/
theorem c9_tolerant_eos_witness :
    Png.fromBytes (stdHeader ++ chunksBytes [⟨0, ⟨82, 117, 83, 116⟩, [], 0⟩] ++ [99])
      = some ⟨stdHeader, [⟨0, ⟨82, 117, 83, 116⟩, [], 0⟩]⟩ :=
  c9_tolerant_eos [⟨0, ⟨82, 117, 83, 116⟩, [], 0⟩] [99] (by decide) (by decide) (by decide)

/-- Claim C4 (code bug): `Png::from_bytes` never compares the 8 header bytes
it reads against the PNG magic; a buffer of 8 zero bytes parses successfully
with the bogus header stored, instead of failing with a BadHeader error (and
a buffer shorter than 8 bytes panics on `unwrap` rather than returning a
MissingHeader error). -/
theorem c4_header_gate_code_bug :
    Png.fromBytes [0, 0, 0, 0, 0, 0, 0, 0] = some ⟨[0, 0, 0, 0, 0, 0, 0, 0], []⟩ ∧
    ([0, 0, 0, 0, 0, 0, 0, 0] : List Nat) ≠ stdHeader :=
  ⟨rfl, by decide⟩

/-- Claim C5 (code bug): inserting into a non-empty container places the new
chunk immediately before the current last element as claimed, but inserting
into an empty container silently drops the chunk (the `if !is_empty` has no
else branch) instead of appending it as the sole element. -/
theorem c5_insert_semantics_code_bug (hdr : List Nat) (A B E X : Chunk) :
    Png.insertChunk ⟨hdr, [A, B, E]⟩ X = ⟨hdr, [A, B, X, E]⟩ ∧
    Png.insertChunk ⟨hdr, []⟩ X = ⟨hdr, []⟩ :=
  ⟨rfl, rfl⟩

theorem removeFirst_none (ct : ChunkType) (l : List Chunk)
    (h : ∀ c ∈ l, c.chunkType ≠ ct) : removeFirst ct l = none := by
  induction l with
  | nil => rfl
  | cons c cs ih =>
    simp only [removeFirst]
    rw [if_neg (h c (List.mem_cons_self c cs))]
    rw [ih (fun x hx => h x (List.mem_cons_of_mem c hx))]

/-- Claim C6 (spec-modelled): remove-first-by-type parses the given type
text, scans the sequence in order, removes exactly the first matching chunk
and returns it, and fails with NotFound when no chunk matches. -/
theorem c6_remove_semantics (hdr s : List Nat) (ct : ChunkType) (A1 B A2 : Chunk)
    (hs : ChunkType.fromStr s = .ok ct) (hA1 : A1.chunkType = ct)
    (_hA2 : A2.chunkType = ct) (_hB : B.chunkType ≠ ct) :
    Png.removeChunk ⟨hdr, [A1, B, A2]⟩ s = .ok (A1, ⟨hdr, [B, A2]⟩) ∧
    (∀ p : Png, (∀ c ∈ p.chunks, c.chunkType ≠ ct) →
      Png.removeChunk p s = .error .notFound) := by
  constructor
  · unfold Png.removeChunk
    rw [hs]
    simp only [removeFirst, if_pos hA1]
  · intro p hnone
    unfold Png.removeChunk
    rw [hs]
    simp only [removeFirst_none ct p.chunks hnone]

/-- Witness for C6: removing type RuSt from [RuSt(1), abcd(2), RuSt(3)]
returns the first RuSt chunk and leaves [abcd(2), RuSt(3)]; removing from an
empty container fails with NotFound. -/
theorem c6_remove_semantics_witness :
    Png.removeChunk ⟨stdHeader, [⟨1, ⟨82, 117, 83, 116⟩, [1], 11⟩,
        ⟨1, ⟨97, 98, 99, 100⟩, [2], 22⟩, ⟨1, ⟨82, 117, 83, 116⟩, [3], 33⟩]⟩
        [82, 117, 83, 116]
      = .ok (⟨1, ⟨82, 117, 83, 116⟩, [1], 11⟩,
          ⟨stdHeader, [⟨1, ⟨97, 98, 99, 100⟩, [2], 22⟩,
            ⟨1, ⟨82, 117, 83, 116⟩, [3], 33⟩]⟩) ∧
    Png.removeChunk ⟨stdHeader, []⟩ [82, 117, 83, 116] = .error .notFound := by
  have H := c6_remove_semantics stdHeader [82, 117, 83, 116] ⟨82, 117, 83, 116⟩
    ⟨1, ⟨82, 117, 83, 116⟩, [1], 11⟩ ⟨1, ⟨97, 98, 99, 100⟩, [2], 22⟩
    ⟨1, ⟨82, 117, 83, 116⟩, [3], 33⟩ (by rfl) rfl rfl (by decide)
  exact ⟨H.1, H.2 ⟨stdHeader, []⟩ (by simp)⟩

/-- Claim C7 (amended): the src/chunk_type.rs constructors enforce the
invariant: TryFrom on four raw bytes fails with an InvalidByte error carrying
the first offending byte whenever some byte is outside A-Z/a-z, and every
ChunkType obtained from TryFrom or FromStr has all four bytes in the letter
ranges.  (The legacy png.rs constructors do not validate; see the
counterexample.) -/
theorem c7_chunk_type_invariant (b0 b1 b2 b3 : Nat) (s : List Nat) (ct : ChunkType)
    (h : ChunkType.tryFromBytes b0 b1 b2 b3 = .ok ct ∨ ChunkType.fromStr s = .ok ct) :
    ChunkType.lettersOk ct = true ∧
    (∀ c0 c1 c2 c3 : Nat,
      (ChunkType.isValidByte c0 && ChunkType.isValidByte c1 &&
        ChunkType.isValidByte c2 && ChunkType.isValidByte c3) = false →
      ∃ bb, ChunkType.tryFromBytes c0 c1 c2 c3 = .error (.invalidByte bb) ∧
        ChunkType.isValidByte bb = false) := by
  constructor
  · rcases h with h | h
    · exact (tryFromBytes_ok_inv h).2
    · exact fromStr_ok_inv h
  · intro c0 c1 c2 c3 hc
    exact tryFromBytes_error_of_invalid c0 c1 c2 c3 hc

/-- Witness for C7 at RuSt (valid) and Ru1t (invalid byte 49). -/
theorem c7_chunk_type_invariant_witness :
    ChunkType.lettersOk ⟨82, 117, 83, 116⟩ = true ∧
    ∃ bb, ChunkType.tryFromBytes 82 117 49 116 = .error (.invalidByte bb) ∧
      ChunkType.isValidByte bb = false := by
  have H := c7_chunk_type_invariant 82 117 83 116 [82, 117, 83, 116]
    ⟨82, 117, 83, 116⟩ (Or.inl (by rfl))
  exact ⟨H.1, H.2 82 117 49 116 (by decide)⟩

/-- Claim C7 counterexample: the legacy string-parsing constructor of
src/png.rs accepts "Ru1t" even though byte 49 is outside the letter ranges,
so not every exposed constructor enforces the claimed invariant. -/
theorem c7_chunk_type_invariant_counterexample :
    ChunkType.fromStrOld [82, 117, 49, 116] = .ok ⟨82, 117, 49, 116⟩ ∧
    ChunkType.isValidByte 49 = false :=
  ⟨rfl, by decide⟩

/-- Claim C8 (amended): for the src/chunk_type.rs predicates, is_critical
holds iff byte 0 is an ASCII uppercase letter, is_public iff byte 1 is
uppercase, is_reserved_bit_valid iff byte 2 is uppercase, is_safe_to_copy iff
byte 3 is lowercase, and is_valid holds iff all four bytes pass the A-Z/a-z
letter check and is_reserved_bit_valid holds; the legacy png.rs is_valid
instead checks only that byte 2 is uppercase. -/
theorem c8_derived_predicates (ct : ChunkType) :
    (ct.is_critical = true ↔ 65 ≤ ct.b0 ∧ ct.b0 ≤ 90) ∧
    (ct.is_public = true ↔ 65 ≤ ct.b1 ∧ ct.b1 ≤ 90) ∧
    (ct.is_reserved_bit_valid = true ↔ 65 ≤ ct.b2 ∧ ct.b2 ≤ 90) ∧
    (ct.is_safe_to_copy = true ↔ 97 ≤ ct.b3 ∧ ct.b3 ≤ 122) ∧
    (ct.is_valid = true ↔
      (ChunkType.lettersOk ct = true ∧ ct.is_reserved_bit_valid = true)) ∧
    (ChunkType.isValidOld ct = true ↔ ct.is_reserved_bit_valid = true) := by
  refine ⟨?_, ?_, ?_, ?_, ?_, ?_⟩
  · simp [ChunkType.is_critical, isAsciiUppercase]
  · simp [ChunkType.is_public, isAsciiUppercase]
  · simp [ChunkType.is_reserved_bit_valid, isAsciiUppercase]
  · simp [ChunkType.is_safe_to_copy, isAsciiLowercase]
  · simp only [ChunkType.is_valid, ChunkType.lettersOk, Bool.and_eq_true]
    tauto
  · simp [ChunkType.isValidOld, ChunkType.is_reserved_bit_valid]

/-- Claim C8 counterexample: the constructible legacy ChunkType with bytes
(49, 49, 65, 49) has legacy is_valid = true even though its bytes fail the
A-Z/a-z check, so is_valid is not equivalent to the letter check plus the
reserved bit. -/
theorem c8_derived_predicates_counterexample :
    ChunkType.isValidOld (ChunkType.fromBytesOld 49 49 65 49) = true ∧
    ChunkType.lettersOk (ChunkType.fromBytesOld 49 49 65 49) = false :=
  ⟨rfl, by decide⟩

/-- Claim C10: chunk construction stores data.len() cast to u32, i.e. the
payload size mod 2^32, while keeping (and serializing) the whole payload; the
stored length equals the true payload size exactly when the payload has fewer
than 2^32 bytes. -/
theorem c10_length_truncation (t : ChunkType) (d : List Nat) :
    (Chunk.new t d).length = d.length % 4294967296 ∧
    (Chunk.new t d).data = d ∧
    (Chunk.new t d).asBytes.length = 12 + d.length ∧
    ((Chunk.new t d).length = d.length ↔ d.length < 4294967296) := by
  refine ⟨rfl, rfl, ?_, ?_⟩
  · simp only [Chunk.new, Chunk.asBytes, ChunkType.bytes, be32Bytes,
      List.length_append, List.length_cons, List.length_nil]
    omega
  · simp only [Chunk.new]
    omega
